import Mathlib

/-!
# Verification of the onewave-hackathon vocabulary pipeline

Shallow embedding of the decision logic of the repository:

* `src/src/vocabulary.ts` — response parser (`parseVocabularyResponse`),
  settings resolver (`rowToOptions` / `getVocabularyOptionsForUser`),
  extraction orchestrator (`createVocabularyFromLyrics`) and the local
  fallback extractor (`getFallbackVocabulary` / `isStopWord`);
* `src/db/settings.ts` — persistence upsert (`upsertUserWords`,
  `insertWordSynonyms`), modelled as the effect of the SQL statements on
  an in-memory table for one user;
* the Genius lyrics extraction (`extractLyricsFromHtml`), modelled from the
  point where the `data-lyrics-container` regions have been located.

JavaScript strings are modelled as Lean `String`, JS numbers as `ℚ` where a
value can be fractional (DB rows, occurrence deltas) and as `Nat` where the
code only ever uses non-negative integral counts (maxWords / minLength and
list truncation).  `Option` models `undefined` / missing fields, `Except`
models thrown exceptions.
-/

namespace OneWave

/-! ## JS string primitives -/

/-- The JavaScript whitespace class (`\s` in regexes, and the characters
removed by `String.prototype.trim`). -/
def jsWhitespace (c : Char) : Bool :=
  c = ' ' ∨ c = '\t' ∨ c = '\n' ∨ c = '\r' ∨ c = '\x0b' ∨ c = '\x0c' ∨
  c = ' ' ∨ c = ' ' ∨ (' ' ≤ c ∧ c ≤ ' ') ∨
  c = ' ' ∨ c = ' ' ∨ c = ' ' ∨ c = ' ' ∨
  c = '　' ∨ c = '﻿'

/-- `trim` on a character list: drop JS whitespace from both ends. -/
def trimChars (l : List Char) : List Char :=
  ((l.dropWhile jsWhitespace).reverse.dropWhile jsWhitespace).reverse

/-- JS `String.prototype.trim`. -/
def jsTrim (s : String) : String := String.mk (trimChars s.toList)

/-- JS `String.prototype.toLowerCase`, restricted to the ASCII range
(`Char.toLower`); all words compared by the pipeline are ASCII-cased the
same way in both semantics. -/
def jsToLowerCase (s : String) : String := String.mk (s.toList.map Char.toLower)

/-! ## A JSON value model and `JSON.parse`

`parseVocabularyResponse` feeds model output to `JSON.parse`.  We model the
parsed values and implement the parser as a fuel-indexed recursive-descent
parser over the character list (fuel `length + 1` is always sufficient
because every recursive call first consumes at least one character). -/

inductive JsValue : Type where
  | null : JsValue
  | bool (b : Bool) : JsValue
  | num (q : ℚ) : JsValue
  | str (s : String) : JsValue
  | arr (elems : List JsValue) : JsValue
  | obj (fields : List (String × JsValue)) : JsValue

/-- JSON whitespace (the only characters `JSON.parse` skips between tokens). -/
def jsonWs (c : Char) : Bool := c = ' ' ∨ c = '\t' ∨ c = '\n' ∨ c = '\r'

def skipJsonWs (cs : List Char) : List Char := cs.dropWhile jsonWs

def isJsonDigit (c : Char) : Bool := '0' ≤ c ∧ c ≤ '9'

def isHexDigit (c : Char) : Bool :=
  ('0' ≤ c ∧ c ≤ '9') ∨ ('a' ≤ c ∧ c ≤ 'f') ∨ ('A' ≤ c ∧ c ≤ 'F')

def hexDigitVal (c : Char) : Nat :=
  if '0' ≤ c ∧ c ≤ '9' then c.toNat - '0'.toNat
  else if 'a' ≤ c ∧ c ≤ 'f' then c.toNat - 'a'.toNat + 10
  else if 'A' ≤ c ∧ c ≤ 'F' then c.toNat - 'A'.toNat + 10
  else 0

def hexVal (ds : List Char) : Nat := ds.foldl (fun acc d => 16 * acc + hexDigitVal d) 0

def decVal (ds : List Char) : Nat := ds.foldl (fun acc d => 10 * acc + (d.toNat - '0'.toNat)) 0

/-- Parse a JSON string body (after the opening quote), returning the decoded
characters and the remainder after the closing quote.  Escapes are decoded as
`JSON.parse` does; a `\uXXXX` high surrogate followed by an escaped low
surrogate yields the combined code point (lone surrogates, which Lean `Char`
cannot hold, decode to `U+0000`). -/
def parseJsonString : Nat → List Char → Option (List Char × List Char)
  | 0, _ => none
  | _ + 1, [] => none
  | fuel + 1, c :: rest =>
    if c = '"' then some ([], rest)
    else if c = '\\' then
      match rest with
      | [] => none
      | e :: rest' =>
        let cont (ch : Char) (tail : List Char) : Option (List Char × List Char) :=
          match parseJsonString fuel tail with
          | some (cs, rem) => some (ch :: cs, rem)
          | none => none
        if e = '"' then cont '"' rest'
        else if e = '\\' then cont '\\' rest'
        else if e = '/' then cont '/' rest'
        else if e = 'b' then cont '\x08' rest'
        else if e = 'f' then cont '\x0c' rest'
        else if e = 'n' then cont '\n' rest'
        else if e = 'r' then cont '\r' rest'
        else if e = 't' then cont '\t' rest'
        else if e = 'u' then
          match rest' with
          | h1 :: h2 :: h3 :: h4 :: rest'' =>
            if isHexDigit h1 ∧ isHexDigit h2 ∧ isHexDigit h3 ∧ isHexDigit h4 then
              let n := hexVal [h1, h2, h3, h4]
              if 0xD800 ≤ n ∧ n ≤ 0xDBFF then
                match rest'' with
                | '\\' :: 'u' :: g1 :: g2 :: g3 :: g4 :: rest3 =>
                  if isHexDigit g1 ∧ isHexDigit g2 ∧ isHexDigit g3 ∧ isHexDigit g4 then
                    let m := hexVal [g1, g2, g3, g4]
                    if 0xDC00 ≤ m ∧ m ≤ 0xDFFF then
                      cont (Char.ofNat (0x10000 + (n - 0xD800) * 0x400 + (m - 0xDC00))) rest3
                    else cont (Char.ofNat n) rest''
                  else cont (Char.ofNat n) rest''
                | _ => cont (Char.ofNat n) rest''
              else cont (Char.ofNat n) rest''
            else none
          | _ => none
        else none
    else if c.toNat < 0x20 then none
    else
      match parseJsonString fuel rest with
      | some (cs, rem) => some (c :: cs, rem)
      | none => none

/-- Parse the optional exponent part of a JSON number. -/
def parseJsonExp (base : ℚ) (cs : List Char) : Option (ℚ × List Char) :=
  match cs with
  | [] => some (base, [])
  | e :: rest =>
    if e = 'e' ∨ e = 'E' then
      let (negExp, rest') : Bool × List Char :=
        match rest with
        | '+' :: r => (false, r)
        | '-' :: r => (true, r)
        | _ => (false, rest)
      let ds := rest'.takeWhile isJsonDigit
      if ds = [] then none
      else
        some (base * (10 : ℚ) ^ (if negExp then -(decVal ds : ℤ) else (decVal ds : ℤ)),
          rest'.drop ds.length)
    else some (base, cs)

/-- Parse the optional fraction and exponent tail of a JSON number.  `intPart`
is the value before the dot. -/
def parseJsonNumberTail (intPart : ℚ) (cs : List Char) : Option (ℚ × List Char) :=
  match cs with
  | '.' :: rest =>
    let ds := rest.takeWhile isJsonDigit
    if ds = [] then none
    else parseJsonExp (intPart + (decVal ds : ℚ) / (10 : ℚ) ^ ds.length) (rest.drop ds.length)
  | _ => parseJsonExp intPart cs

/-- Parse a JSON number starting at `cs` (strict JSON grammar:
`-?(0|[1-9][0-9]*)(\.[0-9]+)?([eE][+-]?[0-9]+)?`). -/
def parseJsonNumber (cs : List Char) : Option (ℚ × List Char) :=
  let (neg, cs') : Bool × List Char :=
    match cs with
    | '-' :: r => (true, r)
    | _ => (false, cs)
  match cs' with
  | [] => none
  | d :: rest =>
    if d = '0' then
      match parseJsonNumberTail 0 rest with
      | some (q, rem) => some (if neg then -q else q, rem)
      | none => none
    else if isJsonDigit d then
      let ds := d :: rest.takeWhile isJsonDigit
      match parseJsonNumberTail (decVal ds : ℚ) (rest.drop (rest.takeWhile isJsonDigit).length) with
      | some (q, rem) => some (if neg then -q else q, rem)
      | none => none
    else none

mutual

/-- One JSON value (leading whitespace allowed), returning the remainder. -/
def parseJsonValue : Nat → List Char → Option (JsValue × List Char)
  | 0, _ => none
  | fuel + 1, cs =>
    match skipJsonWs cs with
    | [] => none
    | c :: rest =>
      if c = 'n' then
        match rest with
        | 'u' :: 'l' :: 'l' :: rem => some (JsValue.null, rem)
        | _ => none
      else if c = 't' then
        match rest with
        | 'r' :: 'u' :: 'e' :: rem => some (JsValue.bool true, rem)
        | _ => none
      else if c = 'f' then
        match rest with
        | 'a' :: 'l' :: 's' :: 'e' :: rem => some (JsValue.bool false, rem)
        | _ => none
      else if c = '"' then
        match parseJsonString (rest.length + 1) rest with
        | some (body, rem) => some (JsValue.str (String.mk body), rem)
        | none => none
      else if c = '[' then
        match skipJsonWs rest with
        | ']' :: rem => some (JsValue.arr [], rem)
        | _ =>
          match parseJsonItems fuel rest with
          | some (elems, rem) => some (JsValue.arr elems, rem)
          | none => none
      else if c = '{' then
        match skipJsonWs rest with
        | '}' :: rem => some (JsValue.obj [], rem)
        | _ =>
          match parseJsonFields fuel rest with
          | some (fields, rem) => some (JsValue.obj fields, rem)
          | none => none
      else if c = '-' ∨ isJsonDigit c then
        match parseJsonNumber (c :: rest) with
        | some (q, rem) => some (JsValue.num q, rem)
        | none => none
      else none

/-- Comma-separated array elements, up to and including the closing `]`. -/
def parseJsonItems : Nat → List Char → Option (List JsValue × List Char)
  | 0, _ => none
  | fuel + 1, cs =>
    match parseJsonValue fuel cs with
    | none => none
    | some (v, rem) =>
      match skipJsonWs rem with
      | ']' :: rem' => some ([v], rem')
      | ',' :: rem' =>
        match parseJsonItems fuel rem' with
        | some (vs, rem'') => some (v :: vs, rem'')
        | none => none
      | _ => none

/-- Comma-separated `"key": value` fields, up to and including the closing
`}`. -/
def parseJsonFields : Nat → List Char → Option (List (String × JsValue) × List Char)
  | 0, _ => none
  | fuel + 1, cs =>
    match skipJsonWs cs with
    | '"' :: rest =>
      match parseJsonString (rest.length + 1) rest with
      | none => none
      | some (key, rem) =>
        match skipJsonWs rem with
        | ':' :: rem' =>
          match parseJsonValue fuel rem' with
          | none => none
          | some (v, rem'') =>
            match skipJsonWs rem'' with
            | '}' :: rem3 => some ([(String.mk key, v)], rem3)
            | ',' :: rem3 =>
              match parseJsonFields fuel rem3 with
              | some (fs, rem4) => some ((String.mk key, v) :: fs, rem4)
              | none => none
            | _ => none
        | _ => none
    | _ => none

end

/-- `JSON.parse`: the whole string must be one JSON value, possibly padded by
JSON whitespace. -/
def jsonParse (s : String) : Option JsValue :=
  match parseJsonValue (s.toList.length + 1) s.toList with
  | some (v, rem) => if skipJsonWs rem = [] then some v else none
  | none => none

/-- Property access on a parsed JSON object: the last binding of a duplicated
key wins, as in the object produced by `JSON.parse`. -/
def jsGetField (fields : List (String × JsValue)) (key : String) : Option JsValue :=
  fields.foldl (fun acc p => if p.1 = key then some p.2 else acc) none

/-! ## The response parser (`parseVocabularyResponse`, src/src/vocabulary.ts)

One extracted word candidate (`VocabularyEntry` in vocabulary.ts).  The
optional `songTitle` / `songArtist` fields are only attached by the route
layer and never touched by the pipeline, so they are not modelled. -/

structure VocabularyEntry : Type where
  word : String
  score : Option ℚ := none
  meaning : Option String := none
  «example» : Option String := none
  synonyms : Option (List String) := none
  occurrences : Option Nat := none
  deriving DecidableEq, Repr

/-- The bracket scan of `parseVocabularyResponse` (vocabulary.ts lines
122-131): starting at the first `[` with depth 0, update the depth at every
character and stop as soon as it returns to 0; the result is the offset of
the matching `]` relative to the first `[`. -/
def scanClose : List Char → Int → Option Nat
  | [], _ => none
  | c :: rest, depth =>
    let d := if c = '[' then depth + 1 else if c = ']' then depth - 1 else depth
    if d = 0 then some 0
    else (scanClose rest d).map (· + 1)

/-- The candidate JSON payload (vocabulary.ts lines 119-132): the substring
from the first `[` to its matching `]` inclusive; the whole (trimmed) text
when there is no `[` or no matching `]`. -/
def extractJsonCandidate (s : String) : String :=
  match s.toList.findIdx? (· = '[') with
  | none => s
  | some i =>
    match scanClose (s.toList.drop i) 0 with
    | none => s
    | some j => String.mk ((s.toList.drop i).take (j + 1))

/-- Normalization of the `synonyms` field (vocabulary.ts lines 154-161):
keep the strings of an array value, trim them, drop empties, and drop the
field entirely if nothing remains (or if the value is not an array). -/
def normalizeSynonyms (v : Option JsValue) : Option (List String) :=
  match v with
  | some (JsValue.arr xs) =>
    let l := ((xs.filterMap fun x =>
      match x with
      | JsValue.str s => some s
      | _ => none).map jsTrim).filter (fun s => !s.isEmpty)
    if l.isEmpty then none else some l
  | _ => none

/-- Normalization of one parsed element that passed the object-with-string-
`word` filter (vocabulary.ts lines 152-169). -/
def normalizeEntry (fields : List (String × JsValue)) (w : String) : VocabularyEntry :=
  { word := jsTrim w
    score :=
      match jsGetField fields "score" with
      | some (JsValue.num q) => some q
      | _ => none
    meaning :=
      match jsGetField fields "meaning" with
      | some (JsValue.str s) => some s
      | _ => none
    «example» :=
      match jsGetField fields "example" with
      | some (JsValue.str s) => some s
      | _ => none
    synonyms := normalizeSynonyms (jsGetField fields "synonyms")
    occurrences := none }

/-- The `normalized` list of `parseVocabularyResponse` (vocabulary.ts lines
145-170): keep elements that are objects with a string `word` field,
normalize each, and drop entries whose trimmed word is shorter than
`minLength`. -/
def normalizedEntries (xs : List JsValue) (minLength : Nat) : List VocabularyEntry :=
  (xs.filterMap fun e =>
    match e with
    | JsValue.obj fs =>
      match jsGetField fs "word" with
      | some (JsValue.str w) => some (normalizeEntry fs w)
      | _ => none
    | _ => none).filter fun e => decide (minLength ≤ e.word.length)

/-- One step of the `countByWord` loop (vocabulary.ts line 175):
`countByWord.set(key, (countByWord.get(key) ?? 0) + 1)` on an association
list with one binding per key. -/
def mapIncr : List (String × Nat) → String → List (String × Nat)
  | [], key => [(key, 1)]
  | (k, v) :: rest, key =>
    if k = key then (k, v + 1) :: rest else (k, v) :: mapIncr rest key

/-- `Map.prototype.get` on the association list. -/
def mapGet : List (String × Nat) → String → Option Nat
  | [], _ => none
  | (k, v) :: rest, key => if k = key then some v else mapGet rest key

/-- The `countByWord` map of `parseVocabularyResponse` (vocabulary.ts lines
172-176): one `mapIncr` per normalized entry, keyed by the lower-cased word. -/
def buildCountMap (l : List VocabularyEntry) : List (String × Nat) :=
  l.foldl (fun m e => mapIncr m (jsToLowerCase e.word)) []

/-- The dedup filter of `parseVocabularyResponse` (vocabulary.ts lines
178-185): keep an entry only when its lower-cased word has not been seen. -/
def dedupFirst (seen : List String) : List VocabularyEntry → List VocabularyEntry
  | [] => []
  | e :: rest =>
    if jsToLowerCase e.word ∈ seen then dedupFirst seen rest
    else e :: dedupFirst (jsToLowerCase e.word :: seen) rest

/-- `parseVocabularyResponse` (vocabulary.ts lines 111-191).  A thrown
exception ("Gemini returned invalid JSON for vocabulary") is modelled as
`Except.error`. -/
def parseVocabularyResponse (text : String) (maxWords minLength : Nat) :
    Except String (List VocabularyEntry) :=
  let trimmed := jsTrim text
  let jsonStr := extractJsonCandidate trimmed
  match jsonParse jsonStr with
  | none => Except.error "Gemini returned invalid JSON for vocabulary"
  | some (JsValue.arr xs) =>
    let normalized := normalizedEntries xs minLength
    let countMap := buildCountMap normalized
    Except.ok ((((dedupFirst [] normalized).map fun e =>
      { e with occurrences := some ((mapGet countMap (jsToLowerCase e.word)).getD 1) })).take
        maxWords)
  | some _ => Except.ok []

/-- The pre-deduplication candidate list that `parseVocabularyResponse`
counts occurrences over (its `normalized` intermediate), recomputed from the
input text. -/
def vocabularyCandidates (text : String) (minLength : Nat) : List VocabularyEntry :=
  match jsonParse (extractJsonCandidate (jsTrim text)) with
  | some (JsValue.arr xs) => normalizedEntries xs minLength
  | _ => []

/-! ## The fallback extractor (`getFallbackVocabulary`, vocabulary.ts 283-307) -/

/-- An ASCII word character (`\w` in a JS regex). -/
def jsWordChar (c : Char) : Bool :=
  ('a' ≤ c ∧ c ≤ 'z') ∨ ('A' ≤ c ∧ c ≤ 'Z') ∨ ('0' ≤ c ∧ c ≤ '9') ∨ c = '_'

/-- `.replace(/[^\w\s]/g, ' ')`. -/
def replaceNonWordWithSpace (s : String) : String :=
  String.mk (s.toList.map fun c => if !(jsWordChar c ∨ jsWhitespace c) then ' ' else c)

/-- `.split(/\s+/)` as a state machine over the characters: `inRun` records
that we are inside a whitespace run whose token has already been emitted.
Like the JS split, a leading (resp. trailing) whitespace run produces a
leading (resp. trailing) empty token. -/
def splitWsGo (inRun : Bool) (cur : List Char) : List Char → List String
  | [] => if inRun then [""] else [String.mk cur.reverse]
  | c :: rest =>
    if jsWhitespace c then
      if inRun then splitWsGo true [] rest
      else String.mk cur.reverse :: splitWsGo true [] rest
    else splitWsGo false (c :: cur) rest

/-- JS `String.prototype.split(/\s+/)`. -/
def jsSplitWs (s : String) : List String := splitWsGo false [] s.toList

/-- The stop-word set of `isStopWord` (vocabulary.ts line 305), in source
order (the duplicated members of the JS array literal are harmless in a
membership test). -/
def stopWords : List String :=
  ["the", "a", "an", "is", "are", "was", "were", "be", "been", "being",
   "have", "has", "had", "do", "does", "did", "will", "would", "could",
   "should", "may", "might", "must", "shall", "can", "need", "and", "or",
   "but", "if", "then", "when", "where", "what", "which", "who", "whom",
   "whose", "why", "how", "this", "that", "these", "those", "it", "its",
   "in", "on", "at", "to", "for", "of", "with", "by", "from", "up", "down",
   "over", "under", "again", "further", "then", "once", "here", "there",
   "why", "how", "all", "any", "both", "each", "few", "more", "most",
   "other", "some", "such", "no", "nor", "not", "only", "own", "same",
   "so", "than", "too", "very", "just", "im", "i", "you", "we", "they",
   "my", "your", "our", "their"]

/-- `isStopWord` (vocabulary.ts lines 304-307). -/
def isStopWord (word : String) : Bool := stopWords.contains (jsToLowerCase word)

/-- First-seen-order deduplication (`[...new Set(words)]`). -/
def firstSeenDedup (seen : List String) : List String → List String
  | [] => []
  | w :: rest =>
    if w ∈ seen then firstSeenDedup seen rest
    else w :: firstSeenDedup (w :: seen) rest

/-- `getFallbackVocabulary` (vocabulary.ts lines 283-301). -/
def getFallbackVocabulary (lyrics : String) (maxWords minLength : Nat) :
    List VocabularyEntry :=
  let words := ((jsSplitWs (replaceNonWordWithSpace (jsToLowerCase lyrics))).filter
    fun w => decide (minLength ≤ w.length)).filter fun w => !isStopWord w
  let uniqueWords := (firstSeenDedup [] words).take maxWords
  uniqueWords.map fun word =>
    { word := word
      score := some 5
      meaning := some "단어 정의"
      «example» := some "가사에서 추출된 단어"
      synonyms := some []
      occurrences := some 1 }

/-! ## The extraction orchestrator (`createVocabularyFromLyrics`,
vocabulary.ts 228-280)

The two remote model calls are inputs of the embedding:

* `streamed` is the outcome of draining the streaming call — `Except.ok`
  with the accumulated full text, or `Except.error` for any transport
  failure;
* `structured` is the outcome of the schema-constrained second call —
  `Except.ok` with the zod-validated `result.items`, or `Except.error` for
  any failure.

`maxWords` and `minLength` are optional JS numbers that the code only ever
instantiates with non-negative integers (defaults 30 / 2, or DB-validated
values in 1..200 / 1..20), modelled as `Option Nat`. -/

inductive VocabularyLanguage : Type where
  | en : VocabularyLanguage
  | ko : VocabularyLanguage
  deriving DecidableEq, Repr

inductive VocabularyLevel : Type where
  | beginner : VocabularyLevel
  | intermediate : VocabularyLevel
  | advanced : VocabularyLevel
  deriving DecidableEq, Repr

/-- `VocabularyOptions` (vocabulary.ts lines 14-19); `none` models an
omitted optional field. -/
structure VocabularyOptions : Type where
  language : VocabularyLanguage
  maxWords : Option Nat := none
  minLength : Option Nat := none
  level : Option VocabularyLevel := none
  deriving DecidableEq, Repr

/-- `VocabularyEnv` (vocabulary.ts lines 35-39); a missing `GEMINI_API_KEY`
binding is modelled as the empty string, the only falsy value of the
`string`-typed field. -/
structure VocabularyEnv : Type where
  GEMINI_API_KEY : String
  GEMINI_MODEL : Option String := none
  GEMINI_BASE_URL : Option String := none
  deriving DecidableEq, Repr

/-- One item of the zod-validated structured output
(`z.object({word, score?, meaning?, example?, synonyms?})`,
vocabulary.ts lines 251-257). -/
structure GeminiStructuredItem : Type where
  word : String
  score : Option ℚ := none
  meaning : Option String := none
  «example» : Option String := none
  synonyms : Option (List String) := none
  deriving DecidableEq, Repr

/-- The normalization of the structured-output attempt (vocabulary.ts lines
264-271): keep items with a truthy (non-empty) `word` whose raw length is at
least `minLength`, spread the item with the word trimmed and `occurrences`
fixed at 1, and truncate to `maxWords`. -/
def structuredToEntries (items : List GeminiStructuredItem)
    (maxWords minLength : Nat) : List VocabularyEntry :=
  ((items.filter fun e => !e.word.isEmpty && decide (minLength ≤ e.word.length)).map
    fun e =>
      { word := jsTrim e.word
        score := e.score
        meaning := e.meaning
        «example» := e.«example»
        synonyms := e.synonyms
        occurrences := some 1 }).take maxWords

/-- `createVocabularyFromLyrics` (vocabulary.ts lines 228-280): precondition
check on the API key, then streaming attempt + parse, then structured
attempt, then local fallback. -/
def createVocabularyFromLyrics (lyrics : String) (options : VocabularyOptions)
    (env : VocabularyEnv) (streamed : Except Unit String)
    (structured : Except Unit (List GeminiStructuredItem)) :
    Except String (List VocabularyEntry) :=
  if env.GEMINI_API_KEY = "" then Except.error "GEMINI_API_KEY is required in env"
  else
    let maxWords := options.maxWords.getD 30
    let minLength := options.minLength.getD 2
    let attempt1 : Except String (List VocabularyEntry) :=
      match streamed with
      | Except.ok fullText => parseVocabularyResponse fullText maxWords minLength
      | Except.error _ => Except.error "Gemini streaming error"
    match attempt1 with
    | Except.ok entries => Except.ok entries
    | Except.error _ =>
      match structured with
      | Except.ok items => Except.ok (structuredToEntries items maxWords minLength)
      | Except.error _ => Except.ok (getFallbackVocabulary lyrics maxWords minLength)

/-- The first stage of `createVocabularyFromLyrics` raised: either the
streaming call itself failed, or the parser rejected the accumulated text. -/
def firstStageFailed (streamed : Except Unit String) (maxWords minLength : Nat) : Prop :=
  match streamed with
  | Except.ok fullText => ∃ msg, parseVocabularyResponse fullText maxWords minLength = Except.error msg
  | Except.error _ => True

/-! ## The settings resolver (`rowToOptions` / `getVocabularyOptionsForUser`,
vocabulary.ts 193-223)

A `user_vocabulary_settings` row carries JS numbers; `some q` models a
finite value (possibly fractional or negative — the row is externally
produced), `none` a non-finite one (`NaN` / `±Infinity`), so that
`Number.isFinite` is `Option.isSome`.  `rowToOptions` always returns a fully
populated `VocabularyOptions` value; its numeric results are modelled
exactly, as `ℚ`. -/

structure UserVocabularySettingsRow : Type where
  language : String
  level : String
  max_words : Option ℚ
  min_length : Option ℚ
  deriving DecidableEq, Repr

/-- The options produced by the resolver: every field present
(`rowToOptions` and the default object set all four fields). -/
structure ResolvedVocabularyOptions : Type where
  language : VocabularyLanguage
  level : VocabularyLevel
  maxWords : ℚ
  minLength : ℚ
  deriving DecidableEq, Repr

/-- `DEFAULT_VOCABULARY_OPTIONS` (vocabulary.ts lines 61-66). -/
def DEFAULT_VOCABULARY_OPTIONS : ResolvedVocabularyOptions :=
  { language := VocabularyLanguage.en
    level := VocabularyLevel.intermediate
    maxWords := 30
    minLength := 2 }

/-- `rowToOptions` (vocabulary.ts lines 193-215). -/
def rowToOptions (row : UserVocabularySettingsRow) : ResolvedVocabularyOptions :=
  { language := if row.language = "ko" then VocabularyLanguage.ko else VocabularyLanguage.en
    level :=
      if row.level = "beginner" then VocabularyLevel.beginner
      else if row.level = "advanced" then VocabularyLevel.advanced
      else VocabularyLevel.intermediate
    maxWords :=
      match row.max_words with
      | some q => if 1 ≤ q ∧ q ≤ 200 then q else DEFAULT_VOCABULARY_OPTIONS.maxWords
      | none => DEFAULT_VOCABULARY_OPTIONS.maxWords
    minLength :=
      match row.min_length with
      | some q => if 1 ≤ q ∧ q ≤ 20 then q else DEFAULT_VOCABULARY_OPTIONS.minLength
      | none => DEFAULT_VOCABULARY_OPTIONS.minLength }

/-- `getVocabularyOptionsForUser` (vocabulary.ts lines 217-223), applied to
the result of the injected settings lookup (`null` ↦ `none`). -/
def getVocabularyOptionsForUser (row : Option UserVocabularySettingsRow) :
    ResolvedVocabularyOptions :=
  match row with
  | some r => rowToOptions r
  | none => DEFAULT_VOCABULARY_OPTIONS

/-! ## The persistence upsert (`upsertUserWords` / `insertWordSynonyms`,
src/db/settings.ts 88-122)

The `user_words` table of one user is a list of rows; `UNIQUE (user_id,
word)` (scripts/init-d1.sql) makes the word a key, so the
`ON CONFLICT (user_id, word) DO UPDATE` of `UPSERT_USER_WORD_SQL` updates
the (unique) conflicting row and otherwise inserts a fresh one.  `count`
and the occurrence delta are JS numbers (`ℚ`).  The `RETURNING id` word-id
map consumed by the synonym pass is not needed by the properties below and
is not modelled; `word_synonyms` rows of one user are `(user_word_id,
synonym)` pairs, with `UNIQUE (user_word_id, synonym)` backing the
`ON CONFLICT ... DO NOTHING`. -/

/-- `UpsertUserWordEntry` (settings.ts lines 28-33). -/
structure UpsertUserWordEntry : Type where
  word : String
  meaning : Option String := none
  occurrences : Option ℚ := none
  deriving DecidableEq, Repr

/-- One `user_words` row of the fixed user. -/
structure UserWordRow : Type where
  word : String
  meaning : Option String
  count : ℚ
  deriving DecidableEq, Repr

/-- The occurrence delta actually bound by `upsertUserWords` (settings.ts
lines 97-98): `typeof e.occurrences === "number" && e.occurrences >= 1 ?
e.occurrences : 1`. -/
def occurrencesDelta (e : UpsertUserWordEntry) : ℚ :=
  match e.occurrences with
  | some q => if 1 ≤ q then q else 1
  | none => 1

/-- Effect of one `UPSERT_USER_WORD_SQL` execution (settings.ts lines
70-76): update the first (by uniqueness, only) row keyed by `w` —
`count = count + EXCLUDED.count`, `meaning = COALESCE(EXCLUDED.meaning,
user_words.meaning)` — or insert `(w, meaning, occ)` when none exists. -/
def upsertWordRow (st : List UserWordRow) (w : String) (meaning : Option String)
    (occ : ℚ) : List UserWordRow :=
  match st with
  | [] => [{ word := w, meaning := meaning, count := occ }]
  | r :: rest =>
    if r.word = w then
      { r with
        count := r.count + occ
        meaning := match meaning with | some m => some m | none => r.meaning } :: rest
    else r :: upsertWordRow rest w meaning occ

/-- `upsertUserWords` (settings.ts lines 88-109) as a state transformer on
the user's `user_words` rows: entries are processed in order, an entry whose
trimmed word is empty is skipped. -/
def upsertUserWords (entries : List UpsertUserWordEntry) (st : List UserWordRow) :
    List UserWordRow :=
  match entries with
  | [] => st
  | e :: rest =>
    let w := jsTrim e.word
    if w = "" then upsertUserWords rest st
    else upsertUserWords rest (upsertWordRow st w e.meaning (occurrencesDelta e))

/-- `INSERT ... ON CONFLICT (user_word_id, synonym) DO NOTHING` for a single
unnested value. -/
def insertSynonymIfAbsent (pairs : List (String × String)) (userWordId synonym : String) :
    List (String × String) :=
  if (userWordId, synonym) ∈ pairs then pairs else pairs ++ [(userWordId, synonym)]

/-- `insertWordSynonyms` (settings.ts lines 114-122) as a state transformer
on the `word_synonyms` rows: trim, drop empties, then insert each remaining
synonym, silently ignoring duplicates. -/
def insertWordSynonyms (userWordId : String) (synonyms : List String)
    (pairs : List (String × String)) : List (String × String) :=
  let l := (synonyms.map jsTrim).filter fun s => decide (0 < s.length)
  l.foldl (fun acc s => insertSynonymIfAbsent acc userWordId s) pairs

/-! ## Lyrics extraction (`extractLyricsFromHtml`, src/genius.ts 221-254)

The function first locates every `data-lyrics-container="true"` region with
a global regex; the embedding starts from the located regions (their raw
inner HTML, in document order) and models the per-region transformation and
the final assembly faithfully: `<br>` markup to newlines, all other tags
stripped, the fixed entity-decoding chain in source order (numeric hex,
numeric decimal, `&amp;`, `&lt;`, `&gt;`, `&quot;`, `&apos;`-alternation),
trim, drop empty regions, join with a blank line, and fail when nothing
remains.  Replacements are the usual left-to-right non-overlapping global
regex passes, written as fuel-indexed scanners (fuel `length + 1` always
suffices: every step consumes at least one character).  A numeric reference
whose code point is not a Lean `Char` (JS would throw a `RangeError` or
produce a lone surrogate) decodes to `U+0000`. -/

/-- Case-insensitive literal prefix match, returning the remainder. -/
def matchesCI : List Char → List Char → Option (List Char)
  | [], rest => some rest
  | _ :: _, [] => none
  | p :: ps, c :: rest => if p.toLower = c.toLower then matchesCI ps rest else none

/-- One global, case-insensitive, left-to-right literal replacement pass
(the shape of `.replace(/pat/gi, rep)` for a literal pattern). -/
def replaceTokenCI (pat rep : List Char) : Nat → List Char → List Char
  | 0, cs => cs
  | _ + 1, [] => []
  | fuel + 1, c :: rest =>
    match matchesCI pat (c :: rest) with
    | some rem => rep ++ replaceTokenCI pat rep fuel rem
    | none => c :: replaceTokenCI pat rep fuel rest

/-- Match `/<br\s*\/?>/i` at the head, returning the remainder. -/
def matchBrTag (cs : List Char) : Option (List Char) :=
  match cs with
  | '<' :: b :: r :: rest =>
    if b.toLower = 'b' ∧ r.toLower = 'r' then
      match rest.dropWhile jsWhitespace with
      | '/' :: '>' :: rem => some rem
      | '>' :: rem => some rem
      | _ => none
    else none
  | _ => none

/-- `.replace(/<br\s*\/?>/gi, "\n")` (genius.ts line 233). -/
def convertBrTags : Nat → List Char → List Char
  | 0, cs => cs
  | _ + 1, [] => []
  | fuel + 1, c :: rest =>
    match matchBrTag (c :: rest) with
    | some rem => '\n' :: convertBrTags fuel rem
    | none => c :: convertBrTags fuel rest

/-- Match `/<[^>]*>/` at the head, returning the remainder. -/
def matchTag (cs : List Char) : Option (List Char) :=
  match cs with
  | '<' :: rest =>
    let inner := rest.takeWhile (· ≠ '>')
    match rest.drop inner.length with
    | '>' :: rem => some rem
    | _ => none
  | _ => none

/-- `.replace(/<[^>]*>/g, "")` (genius.ts line 233). -/
def stripTags : Nat → List Char → List Char
  | 0, cs => cs
  | _ + 1, [] => []
  | fuel + 1, c :: rest =>
    match matchTag (c :: rest) with
    | some rem => stripTags fuel rem
    | none => c :: stripTags fuel rest

/-- `.replace(/&#x([0-9a-f]+);/gi, fromCodePoint(parseInt(_, 16)))`
(genius.ts line 236). -/
def hexEntityPass : Nat → List Char → List Char
  | 0, cs => cs
  | _ + 1, [] => []
  | fuel + 1, c :: rest =>
    match c :: rest with
    | '&' :: '#' :: x :: rest' =>
      if x.toLower = 'x' then
        let ds := rest'.takeWhile isHexDigit
        match ds, rest'.drop ds.length with
        | _ :: _, ';' :: rem => Char.ofNat (hexVal ds) :: hexEntityPass fuel rem
        | _, _ => c :: hexEntityPass fuel rest
      else c :: hexEntityPass fuel rest
    | _ => c :: hexEntityPass fuel rest

/-- `.replace(/&#(\d+);/gi, fromCodePoint(Number(_)))` (genius.ts line 237). -/
def decEntityPass : Nat → List Char → List Char
  | 0, cs => cs
  | _ + 1, [] => []
  | fuel + 1, c :: rest =>
    match c :: rest with
    | '&' :: '#' :: rest' =>
      let ds := rest'.takeWhile isJsonDigit
      match ds, rest'.drop ds.length with
      | _ :: _, ';' :: rem => Char.ofNat (decVal ds) :: decEntityPass fuel rem
      | _, _ => c :: decEntityPass fuel rest
    | _ => c :: decEntityPass fuel rest

/-- `.replace(/&(apos|#x27|#39);/gi, "'")` (genius.ts line 242). -/
def aposEntityPass : Nat → List Char → List Char
  | 0, cs => cs
  | _ + 1, [] => []
  | fuel + 1, c :: rest =>
    match matchesCI ['&', 'a', 'p', 'o', 's', ';'] (c :: rest) with
    | some rem => '\'' :: aposEntityPass fuel rem
    | none =>
      match matchesCI ['&', '#', 'x', '2', '7', ';'] (c :: rest) with
      | some rem => '\'' :: aposEntityPass fuel rem
      | none =>
        match matchesCI ['&', '#', '3', '9', ';'] (c :: rest) with
        | some rem => '\'' :: aposEntityPass fuel rem
        | none => c :: aposEntityPass fuel rest

/-- The entity-decoding chain of `extractLyricsFromHtml` (genius.ts lines
235-242), in source order: numeric hex, numeric decimal, `&amp;`, `&lt;`,
`&gt;`, `&quot;`, then the apostrophe alternation. -/
def decodeHtmlEntities (l : List Char) : List Char :=
  let l1 := hexEntityPass (l.length + 1) l
  let l2 := decEntityPass (l1.length + 1) l1
  let l3 := replaceTokenCI ['&', 'a', 'm', 'p', ';'] ['&'] (l2.length + 1) l2
  let l4 := replaceTokenCI ['&', 'l', 't', ';'] ['<'] (l3.length + 1) l3
  let l5 := replaceTokenCI ['&', 'g', 't', ';'] ['>'] (l4.length + 1) l4
  let l6 := replaceTokenCI ['&', 'q', 'u', 'o', 't', ';'] ['"'] (l5.length + 1) l5
  aposEntityPass (l6.length + 1) l6

/-- The per-region body of the `extractLyricsFromHtml` loop (genius.ts lines
231-243): `<br>` to newlines, strip remaining tags, decode entities, trim. -/
def decodeLyricsContent (content : String) : String :=
  let l0 := content.toList
  let l1 := convertBrTags (l0.length + 1) l0
  let l2 := stripTags (l1.length + 1) l1
  jsTrim (String.mk (decodeHtmlEntities l2))

/-- `lyricsParts.join("\n\n")`. -/
def joinBlankLine : List String → String
  | [] => ""
  | [s] => s
  | s :: rest => s ++ "\n\n" ++ joinBlankLine rest

/-- `extractLyricsFromHtml` (genius.ts lines 221-254) from the point where
the `data-lyrics-container` regions have been located: decode each region,
keep the non-empty ones, fail if none remains, else join with a blank
line. -/
def extractLyricsFromRegions (regions : List String) : Except String String :=
  let lyricsParts := (regions.map decodeLyricsContent).filter fun s => decide (0 < s.length)
  match lyricsParts with
  | [] => Except.error "Could not extract lyrics from page"
  | _ => Except.ok (joinBlankLine lyricsParts)

/-! ## Supporting lemmas -/

theorem mem_of_mem_dedupFirst {e : VocabularyEntry} :
    ∀ {seen : List String} {l : List VocabularyEntry}, e ∈ dedupFirst seen l → e ∈ l := by
  intro seen l
  induction l generalizing seen with
  | nil => simp [dedupFirst]
  | cons x rest ih =>
    intro h
    simp only [dedupFirst] at h
    split at h
    · exact List.mem_cons_of_mem x (ih h)
    · rcases List.mem_cons.mp h with h' | h'
      · exact h' ▸ List.mem_cons_self x rest
      · exact List.mem_cons_of_mem x (ih h')

theorem key_not_mem_seen_of_mem_dedupFirst {e : VocabularyEntry} :
    ∀ {seen : List String} {l : List VocabularyEntry},
      e ∈ dedupFirst seen l → jsToLowerCase e.word ∉ seen := by
  intro seen l
  induction l generalizing seen with
  | nil => simp [dedupFirst]
  | cons x rest ih =>
    intro h
    simp only [dedupFirst] at h
    split at h
    · exact ih h
    · rcases List.mem_cons.mp h with h' | h'
      · subst h'; assumption
      · intro hmem
        exact ih h' (List.mem_cons_of_mem _ hmem)

theorem pairwise_dedupFirst :
    ∀ (seen : List String) (l : List VocabularyEntry),
      (dedupFirst seen l).Pairwise fun a b => jsToLowerCase a.word ≠ jsToLowerCase b.word := by
  intro seen l
  induction l generalizing seen with
  | nil => simp [dedupFirst]
  | cons x rest ih =>
    simp only [dedupFirst]
    split
    · exact ih seen
    · refine List.Pairwise.cons (fun b hb hkey => ?_) (ih _)
      have := key_not_mem_seen_of_mem_dedupFirst hb
      exact this (hkey ▸ List.mem_cons_self _ _)

theorem find?_of_mem_dedupFirst {e : VocabularyEntry} :
    ∀ {seen : List String} {l : List VocabularyEntry}, e ∈ dedupFirst seen l →
      l.find? (fun x => decide (jsToLowerCase x.word = jsToLowerCase e.word)) = some e := by
  intro seen l
  induction l generalizing seen with
  | nil => simp [dedupFirst]
  | cons x rest ih =>
    intro h
    simp only [dedupFirst] at h
    split at h
    · rename_i hseen
      have hne : jsToLowerCase x.word ≠ jsToLowerCase e.word := by
        intro hxe
        exact key_not_mem_seen_of_mem_dedupFirst h (hxe ▸ hseen)
      rw [List.find?_cons_of_neg _ (by simpa using hne), ih h]
    · rcases List.mem_cons.mp h with h' | h'
      · subst h'
        exact List.find?_cons_of_pos _ (by simp)
      · have hkey := key_not_mem_seen_of_mem_dedupFirst h'
        have hne : jsToLowerCase x.word ≠ jsToLowerCase e.word := by
          intro hxe
          exact hkey (hxe ▸ List.mem_cons_self _ _)
        rw [List.find?_cons_of_neg _ (by simpa using hne), ih h']

theorem mapGet_mapIncr (m : List (String × Nat)) (k' k : String) :
    mapGet (mapIncr m k') k =
      if k' = k then some ((mapGet m k).getD 0 + 1) else mapGet m k := by
  induction m with
  | nil =>
    by_cases h : k' = k <;> simp [mapIncr, mapGet, h]
  | cons p rest ih =>
    obtain ⟨a, v⟩ := p
    by_cases hak' : a = k'
    · subst hak'
      by_cases hak : a = k
      · subst hak; simp [mapIncr, mapGet]
      · simp [mapIncr, mapGet, hak]
    · by_cases hak : a = k
      · subst hak
        have : k' ≠ a := fun h => hak' h.symm
        simp [mapIncr, mapGet, hak', this]
      · simp [mapIncr, mapGet, hak', hak, ih]

/-- The `countByWord` fold does not change a binding whose key is matched by
no element. -/
theorem foldl_mapIncr_of_countP_eq_zero (k : String) :
    ∀ (l : List VocabularyEntry) (m : List (String × Nat)),
      l.countP (fun e => decide (jsToLowerCase e.word = k)) = 0 →
      mapGet (l.foldl (fun m e => mapIncr m (jsToLowerCase e.word)) m) k = mapGet m k := by
  intro l
  induction l with
  | nil => simp
  | cons e rest ih =>
    intro m hc
    rw [List.countP_cons] at hc
    by_cases hk : jsToLowerCase e.word = k
    · simp [hk] at hc
    · simp only [List.foldl_cons]
      rw [ih _ (by simpa [hk] using hc), mapGet_mapIncr, if_neg hk]

/-- The `countByWord` fold binds a matched key to the base value plus the
number of matching elements. -/
theorem foldl_mapIncr_of_countP_pos (k : String) :
    ∀ (l : List VocabularyEntry) (m : List (String × Nat)),
      0 < l.countP (fun e => decide (jsToLowerCase e.word = k)) →
      mapGet (l.foldl (fun m e => mapIncr m (jsToLowerCase e.word)) m) k =
        some ((mapGet m k).getD 0 + l.countP (fun e => decide (jsToLowerCase e.word = k))) := by
  intro l
  induction l with
  | nil => simp
  | cons e rest ih =>
    intro m hc
    simp only [List.foldl_cons, List.countP_cons]
    by_cases hk : jsToLowerCase e.word = k
    · by_cases hr : 0 < rest.countP (fun e => decide (jsToLowerCase e.word = k))
      · rw [ih _ hr, mapGet_mapIncr, if_pos hk]
        simp [hk]
        omega
      · have hz : rest.countP (fun e => decide (jsToLowerCase e.word = k)) = 0 := by omega
        rw [foldl_mapIncr_of_countP_eq_zero _ _ _ hz, mapGet_mapIncr, if_pos hk]
        simp [hk, hz]
    · rw [List.countP_cons, if_neg (by simpa using hk)] at hc
      rw [ih _ (by simpa [hk] using hc), mapGet_mapIncr, if_neg hk]
      simp [hk]

/-- Every binding the `countByWord` map holds for the key of a member of the
counted list is the match count of that key. -/
theorem mapGet_buildCountMap_of_mem {l : List VocabularyEntry} {e : VocabularyEntry}
    (he : e ∈ l) :
    mapGet (buildCountMap l) (jsToLowerCase e.word) =
      some (l.countP fun x => decide (jsToLowerCase x.word = jsToLowerCase e.word)) := by
  have hpos : 0 < l.countP fun x => decide (jsToLowerCase x.word = jsToLowerCase e.word) :=
    List.countP_pos_iff.mpr ⟨e, he, by simp⟩
  rw [buildCountMap, foldl_mapIncr_of_countP_pos _ _ _ hpos]
  simp [mapGet]

theorem occurrences_none_of_mem_normalizedEntries {xs : List JsValue} {minLength : Nat}
    {e : VocabularyEntry} (he : e ∈ normalizedEntries xs minLength) :
    e.occurrences = none := by
  rw [normalizedEntries] at he
  obtain ⟨x, -, hx⟩ := List.mem_filterMap.mp (List.mem_filter.mp he).1
  cases x with
  | null => simp at hx
  | bool b => simp at hx
  | num q => simp at hx
  | str s => simp at hx
  | arr l => simp at hx
  | obj fs =>
    simp only at hx
    rcases h : jsGetField fs "word" with - | v
    · rw [h] at hx; simp at hx
    · rw [h] at hx
      cases v with
      | str w =>
        simp at hx
        rw [← hx, normalizeEntry]
      | null => simp at hx
      | bool b => simp at hx
      | num q => simp at hx
      | arr l => simp at hx
      | obj fs2 => simp at hx

theorem erase_occurrences_eq_self {e : VocabularyEntry} (h : e.occurrences = none) :
    { e with occurrences := none } = e := by
  cases e
  simp_all

theorem minLength_le_of_mem_normalizedEntries {xs : List JsValue} {minLength : Nat}
    {e : VocabularyEntry} (he : e ∈ normalizedEntries xs minLength) :
    minLength ≤ e.word.length := by
  rw [normalizedEntries] at he
  simpa using (List.mem_filter.mp he).2

theorem setOccurrences_then_none (e : VocabularyEntry) (c : Option Nat) :
    ({ { e with occurrences := c } with occurrences := none } : VocabularyEntry) =
      { e with occurrences := none } := rfl

/-! ## Claims about the response parser -/

/-- Claim C1: for every input text, `maxWords` and `minLength`, the entries
returned by `parseVocabularyResponse` are pairwise distinct under
case-folded comparison of their `word` field; each returned entry's
`occurrences` equals the number of entries of the normalized,
`minLength`-filtered candidate list (before deduplication) whose
case-folded word matches; and deduplication keeps the first occurrence per
case-folded word (each returned entry, with its attached count stripped, is
the first matching candidate). -/
theorem parseVocabularyResponse_dedup_occurrences :
    ∀ (text : String) (maxWords minLength : Nat) (entries : List VocabularyEntry),
      parseVocabularyResponse text maxWords minLength = Except.ok entries →
      (entries.Pairwise fun a b => jsToLowerCase a.word ≠ jsToLowerCase b.word) ∧
      ∀ e ∈ entries,
        e.occurrences = some ((vocabularyCandidates text minLength).countP
          fun x => decide (jsToLowerCase x.word = jsToLowerCase e.word)) ∧
        (vocabularyCandidates text minLength).find?
            (fun x => decide (jsToLowerCase x.word = jsToLowerCase e.word)) =
          some { e with occurrences := none } := by
  intro text maxWords minLength entries h
  rw [parseVocabularyResponse] at h
  rw [vocabularyCandidates]
  rcases hj : jsonParse (extractJsonCandidate (jsTrim text)) with - | v
  · rw [hj] at h; cases h
  · rw [hj] at h
    cases v with
    | null => simp at h; subst h; simp
    | bool b => simp at h; subst h; simp
    | num q => simp at h; subst h; simp
    | str s => simp at h; subst h; simp
    | obj fs => simp at h; subst h; simp
    | arr xs =>
      simp only [Except.ok.injEq] at h
      subst h
      constructor
      · refine List.Pairwise.sublist (List.take_sublist _ _) ?_
        exact List.Pairwise.map _ (fun a b hab => by simpa using hab)
          (pairwise_dedupFirst [] _)
      · intro e he
        obtain ⟨e0, he0, rfl⟩ := List.mem_map.mp (List.mem_of_mem_take he)
        have hmem : e0 ∈ normalizedEntries xs minLength := mem_of_mem_dedupFirst he0
        refine ⟨?_, ?_⟩
        · show some _ = some _
          rw [show jsToLowerCase
              ({ e0 with occurrences := some ((mapGet (buildCountMap
                (normalizedEntries xs minLength)) (jsToLowerCase e0.word)).getD 1) } :
                VocabularyEntry).word = jsToLowerCase e0.word from rfl,
            mapGet_buildCountMap_of_mem hmem]
          simp
        · rw [setOccurrences_then_none,
            erase_occurrences_eq_self (occurrences_none_of_mem_normalizedEntries hmem)]
          exact find?_of_mem_dedupFirst he0

set_option maxRecDepth 4000 in
/-- Claim C2: on the scenario response text with `maxWords = 10` and
`minLength = 2`, the parser returns exactly `shine` (score 8, occurrences 2)
followed by `forever` (score 7, occurrences 1). -/
theorem parseVocabularyResponse_scenario_shine :
    parseVocabularyResponse
        "[\x7b\"word\":\"shine\",\"score\":8\x7d,\x7b\"word\":\"Shine\",\"score\":5\x7d,\x7b\"word\":\"forever\",\"score\":7\x7d]"
        10 2 =
      Except.ok
        [{ word := "shine", score := some 8, occurrences := some 2 },
         { word := "forever", score := some 7, occurrences := some 1 }] := by
  rfl

/-- Claim C8: whenever `parseVocabularyResponse` returns a list, it has at
most `maxWords` entries and every entry's word has length at least
`minLength`. -/
theorem parseVocabularyResponse_maxWords_minLength :
    ∀ (text : String) (maxWords minLength : Nat) (entries : List VocabularyEntry),
      parseVocabularyResponse text maxWords minLength = Except.ok entries →
      entries.length ≤ maxWords ∧ ∀ e ∈ entries, minLength ≤ e.word.length := by
  intro text maxWords minLength entries h
  rw [parseVocabularyResponse] at h
  rcases hj : jsonParse (extractJsonCandidate (jsTrim text)) with - | v
  · rw [hj] at h; cases h
  · rw [hj] at h
    cases v with
    | null => simp at h; subst h; simp
    | bool b => simp at h; subst h; simp
    | num q => simp at h; subst h; simp
    | str s => simp at h; subst h; simp
    | obj fs => simp at h; subst h; simp
    | arr xs =>
      simp only [Except.ok.injEq] at h
      subst h
      refine ⟨(List.length_take_le _ _), ?_⟩
      intro e he
      obtain ⟨e0, he0, rfl⟩ := List.mem_map.mp (List.mem_of_mem_take he)
      have h1 : minLength ≤ e0.word.length :=
        minLength_le_of_mem_normalizedEntries (mem_of_mem_dedupFirst he0)
      exact h1

/-- Claim C10: when the text contains a `[` whose bracket depth never
returns to zero, the candidate handed to the JSON parse is the whole
(trimmed) text; consequently `"x [1,2"` is rejected as invalid JSON rather
than parsed as a truncated array. -/
theorem extractJsonCandidate_unbalanced :
    (∀ (s : String) (i : Nat),
      s.toList.findIdx? (· = '[') = some i →
      scanClose (s.toList.drop i) 0 = none →
      extractJsonCandidate s = s) ∧
    ∀ maxWords minLength : Nat,
      parseVocabularyResponse "x [1,2" maxWords minLength =
        Except.error "Gemini returned invalid JSON for vocabulary" := by
  constructor
  · intro s i h1 h2
    rw [extractJsonCandidate, h1]
    simp only [String.toList] at h2
    simp [h2]
  · intro maxWords minLength
    rfl

/-- Witness for C10 at the concrete input `"x [1,2"`. -/
theorem extractJsonCandidate_unbalanced_witness :
    extractJsonCandidate "x [1,2" = "x [1,2" ∧
    parseVocabularyResponse "x [1,2" 10 2 =
      Except.error "Gemini returned invalid JSON for vocabulary" :=
  ⟨extractJsonCandidate_unbalanced.1 "x [1,2" 2 (by rfl) (by rfl),
   extractJsonCandidate_unbalanced.2 10 2⟩

/-- Witness for C1 at a concrete input with a case-folded duplicate. -/
theorem parseVocabularyResponse_dedup_occurrences_witness :
    (([{ word := "Up", occurrences := some 2 },
       { word := "down", occurrences := some 1 }] :
        List VocabularyEntry).Pairwise fun a b =>
          jsToLowerCase a.word ≠ jsToLowerCase b.word) ∧
    ∀ e ∈ ([{ word := "Up", occurrences := some 2 },
            { word := "down", occurrences := some 1 }] : List VocabularyEntry),
      e.occurrences = some ((vocabularyCandidates
        "[\x7b\"word\":\"Up\"\x7d,\x7b\"word\":\"up\"\x7d,\x7b\"word\":\"down\"\x7d]" 2).countP
          fun x => decide (jsToLowerCase x.word = jsToLowerCase e.word)) ∧
      (vocabularyCandidates
        "[\x7b\"word\":\"Up\"\x7d,\x7b\"word\":\"up\"\x7d,\x7b\"word\":\"down\"\x7d]" 2).find?
          (fun x => decide (jsToLowerCase x.word = jsToLowerCase e.word)) =
        some { e with occurrences := none } :=
  parseVocabularyResponse_dedup_occurrences
    "[\x7b\"word\":\"Up\"\x7d,\x7b\"word\":\"up\"\x7d,\x7b\"word\":\"down\"\x7d]" 10 2 _ (by rfl)

/-- Witness for C8 at a concrete input where the truncation bites. -/
theorem parseVocabularyResponse_maxWords_minLength_witness :
    ([{ word := "alpha", occurrences := some 1 }] : List VocabularyEntry).length ≤ 1 ∧
    ∀ e ∈ ([{ word := "alpha", occurrences := some 1 }] : List VocabularyEntry),
      2 ≤ e.word.length :=
  parseVocabularyResponse_maxWords_minLength
    "[\x7b\"word\":\"alpha\"\x7d,\x7b\"word\":\"be\"\x7d]" 1 2 _ (by rfl)

/-! ## Claims about the fallback extractor and the orchestrator -/

/-- Claim C9: `getFallbackVocabulary` is total (it is a Lean function, so it
is defined — and in particular never throws — on every input), and every
entry it returns carries `occurrences = 1`, `score = 5`, empty `synonyms`
and the fixed placeholder `meaning` and `example` strings. -/
theorem getFallbackVocabulary_placeholders :
    ∀ (lyrics : String) (maxWords minLength : Nat),
      ∀ e ∈ getFallbackVocabulary lyrics maxWords minLength,
        e.score = some 5 ∧ e.meaning = some "단어 정의" ∧
        e.«example» = some "가사에서 추출된 단어" ∧ e.synonyms = some [] ∧
        e.occurrences = some 1 := by
  intro lyrics maxWords minLength e he
  rw [getFallbackVocabulary] at he
  obtain ⟨w, -, rfl⟩ := List.mem_map.mp he
  exact ⟨rfl, rfl, rfl, rfl, rfl⟩

/-- Witness for C9 at the concrete lyrics `"hello world"`. -/
theorem getFallbackVocabulary_placeholders_witness :
    (({ word := "hello", score := some 5, meaning := some "단어 정의",
        «example» := some "가사에서 추출된 단어", synonyms := some [],
        occurrences := some 1 } : VocabularyEntry) ∈
      getFallbackVocabulary "hello world" 10 2) ∧
    (some 5 : Option ℚ) = some 5 ∧
    (some "단어 정의" : Option String) = some "단어 정의" ∧
    (some "가사에서 추출된 단어" : Option String) = some "가사에서 추출된 단어" ∧
    (some [] : Option (List String)) = some [] ∧
    (some 1 : Option Nat) = some 1 :=
  ⟨by decide, getFallbackVocabulary_placeholders "hello world" 10 2
    { word := "hello", score := some 5, meaning := some "단어 정의",
      «example» := some "가사에서 추출된 단어", synonyms := some [],
      occurrences := some 1 } (by decide)⟩

/-- With a key present and a failed first stage, a successful structured
attempt is what the orchestrator returns. -/
theorem createVocabularyFromLyrics_structured_result
    (lyrics : String) (options : VocabularyOptions) (env : VocabularyEnv)
    (streamed : Except Unit String) (items : List GeminiStructuredItem)
    (hk : env.GEMINI_API_KEY ≠ "")
    (hfail : firstStageFailed streamed (options.maxWords.getD 30)
      (options.minLength.getD 2)) :
    createVocabularyFromLyrics lyrics options env streamed (Except.ok items) =
      Except.ok (structuredToEntries items (options.maxWords.getD 30)
        (options.minLength.getD 2)) := by
  simp only [createVocabularyFromLyrics, if_neg hk]
  cases streamed with
  | ok t =>
    simp only [firstStageFailed] at hfail
    obtain ⟨msg, hmsg⟩ := hfail
    simp [hmsg]
  | error e => simp

/-- Claim C3: `createVocabularyFromLyrics` throws exactly when the API key
is absent or empty, and this does not depend on the outcome of either model
attempt (the check precedes them); with a key present it never throws —
stage-1 success is returned as is, a stage-1 failure falls through to the
structured attempt, and a failure of that falls through to the local
fallback, which always succeeds. -/
theorem createVocabularyFromLyrics_config_and_fallback :
    ∀ (lyrics : String) (options : VocabularyOptions) (env : VocabularyEnv)
      (streamed : Except Unit String)
      (structured : Except Unit (List GeminiStructuredItem)),
      (env.GEMINI_API_KEY = "" →
        createVocabularyFromLyrics lyrics options env streamed structured =
          Except.error "GEMINI_API_KEY is required in env") ∧
      (env.GEMINI_API_KEY ≠ "" →
        (∃ entries, createVocabularyFromLyrics lyrics options env streamed structured =
          Except.ok entries) ∧
        (∀ fullText entries, streamed = Except.ok fullText →
          parseVocabularyResponse fullText (options.maxWords.getD 30)
              (options.minLength.getD 2) = Except.ok entries →
          createVocabularyFromLyrics lyrics options env streamed structured =
            Except.ok entries) ∧
        (firstStageFailed streamed (options.maxWords.getD 30) (options.minLength.getD 2) →
          (∀ items, structured = Except.ok items →
            createVocabularyFromLyrics lyrics options env streamed structured =
              Except.ok (structuredToEntries items (options.maxWords.getD 30)
                (options.minLength.getD 2))) ∧
          ∀ err, structured = Except.error err →
            createVocabularyFromLyrics lyrics options env streamed structured =
              Except.ok (getFallbackVocabulary lyrics (options.maxWords.getD 30)
                (options.minLength.getD 2)))) := by
  intro lyrics options env streamed structured
  by_cases hk : env.GEMINI_API_KEY = ""
  · exact ⟨fun _ => by simp [createVocabularyFromLyrics, hk], fun hne => absurd hk hne⟩
  · refine ⟨fun h => absurd h hk, fun _ => ?_⟩
    simp only [createVocabularyFromLyrics, if_neg hk]
    cases streamed with
    | ok t =>
      cases hp : parseVocabularyResponse t (options.maxWords.getD 30)
          (options.minLength.getD 2) with
      | ok es =>
        refine ⟨⟨es, by simp [hp]⟩, ?_, ?_⟩
        · intro fullText entries hft hp'
          obtain rfl : t = fullText := by injection hft
          rw [hp] at hp'
          obtain rfl : es = entries := by injection hp'
          simp [hp]
        · intro hfail
          simp only [firstStageFailed] at hfail
          obtain ⟨msg, hmsg⟩ := hfail
          rw [hp] at hmsg
          cases hmsg
      | error msg =>
        refine ⟨?_, ?_, fun _ => ⟨?_, ?_⟩⟩
        · cases structured with
          | ok items =>
            exact ⟨structuredToEntries items (options.maxWords.getD 30)
              (options.minLength.getD 2), by simp [hp]⟩
          | error err =>
            exact ⟨getFallbackVocabulary lyrics (options.maxWords.getD 30)
              (options.minLength.getD 2), by simp [hp]⟩
        · intro fullText entries hft hp'
          obtain rfl : t = fullText := by injection hft
          rw [hp] at hp'
          cases hp'
        · intro items hit
          subst hit
          simp [hp]
        · intro err herr
          subst herr
          simp [hp]
    | error e =>
      refine ⟨?_, ?_, fun _ => ⟨?_, ?_⟩⟩
      · cases structured with
        | ok items =>
          exact ⟨structuredToEntries items (options.maxWords.getD 30)
            (options.minLength.getD 2), by simp⟩
        | error err =>
          exact ⟨getFallbackVocabulary lyrics (options.maxWords.getD 30)
            (options.minLength.getD 2), by simp⟩
      · intro fullText entries hft
        cases hft
      · intro items hit
        subst hit
        simp
      · intro err herr
        subst herr
        simp

/-- Witness for C3: with a key present, a failed streaming call and a failed
structured call, the orchestrator returns the fallback entries. -/
theorem createVocabularyFromLyrics_config_and_fallback_witness :
    (∃ entries,
      createVocabularyFromLyrics "la la" { language := VocabularyLanguage.en }
          { GEMINI_API_KEY := "k" } (Except.error ()) (Except.error ()) =
        Except.ok entries) ∧
    createVocabularyFromLyrics "la la" { language := VocabularyLanguage.en }
        { GEMINI_API_KEY := "k" } (Except.error ()) (Except.error ()) =
      Except.ok (getFallbackVocabulary "la la" 30 2) :=
  have h := (createVocabularyFromLyrics_config_and_fallback "la la"
    { language := VocabularyLanguage.en } { GEMINI_API_KEY := "k" }
    (Except.error ()) (Except.error ())).2 (by decide)
  ⟨h.1, (h.2.2 (by simp [firstStageFailed])).2 () rfl⟩

/-- The counterexample input to claim C5: a structured item whose raw word
`"a "` has length 2 but trims to `"a"` of length 1. -/
def c5Item : GeminiStructuredItem := { word := "a " }

/-- The options of the C5 counterexample run. -/
def c5Options : VocabularyOptions :=
  { language := VocabularyLanguage.en, maxWords := some 10, minLength := some 2 }

/-- Counterexample to claim C5 as stated: in the structured-output second
attempt with `minLength = 2`, the item `{word: "a "}` survives the length
filter (which inspects the raw word) and is returned with the trimmed word
`"a"`, whose length is below `minLength`. -/
theorem structuredAttempt_lengthFilter_counterexample :
    createVocabularyFromLyrics "lyrics" c5Options { GEMINI_API_KEY := "key" }
      (Except.error ()) (Except.ok [c5Item]) =
      Except.ok [{ word := "a", occurrences := some 1 }] ∧
    ¬ (2 ≤ ("a" : String).length) := by
  exact ⟨rfl, by decide⟩

/-- Claim C5 as amended: in the structured-output second attempt, every
returned entry has `occurrences = 1` and is the trim of an item whose *raw*
(pre-trim) word is non-empty and has length at least `minLength` — the
length filter runs before trimming, so the trimmed word itself may be
shorter — and at most `maxWords` entries are returned. -/
theorem structuredAttempt_normalization :
    ∀ (lyrics : String) (options : VocabularyOptions) (env : VocabularyEnv)
      (streamed : Except Unit String) (items : List GeminiStructuredItem),
      env.GEMINI_API_KEY ≠ "" →
      firstStageFailed streamed (options.maxWords.getD 30) (options.minLength.getD 2) →
      createVocabularyFromLyrics lyrics options env streamed (Except.ok items) =
        Except.ok (structuredToEntries items (options.maxWords.getD 30)
          (options.minLength.getD 2)) ∧
      (structuredToEntries items (options.maxWords.getD 30)
        (options.minLength.getD 2)).length ≤ options.maxWords.getD 30 ∧
      ∀ e ∈ structuredToEntries items (options.maxWords.getD 30)
          (options.minLength.getD 2),
        e.occurrences = some 1 ∧
        ∃ item ∈ items, item.word ≠ "" ∧
          options.minLength.getD 2 ≤ item.word.length ∧ e.word = jsTrim item.word := by
  intro lyrics options env streamed items hk hfail
  refine ⟨createVocabularyFromLyrics_structured_result lyrics options env streamed items
    hk hfail, List.length_take_le _ _, ?_⟩
  intro e he
  rw [structuredToEntries] at he
  obtain ⟨item, hitem, rfl⟩ := List.mem_map.mp (List.mem_of_mem_take he)
  obtain ⟨hmem, hcond⟩ := List.mem_filter.mp hitem
  rw [Bool.and_eq_true, Bool.not_eq_true'] at hcond
  refine ⟨rfl, item, hmem, ?_, of_decide_eq_true hcond.2, rfl⟩
  intro hempty
  rw [hempty] at hcond
  exact absurd hcond.1 (by decide)

/-- Witness for the amended claim C5 at a concrete structured result. -/
theorem structuredAttempt_normalization_witness :
    createVocabularyFromLyrics "lyrics" { language := VocabularyLanguage.en }
        { GEMINI_API_KEY := "key" } (Except.error ())
        (Except.ok [{ word := " hello " }]) =
      Except.ok (structuredToEntries [{ word := " hello " }] 30 2) ∧
    (structuredToEntries [{ word := " hello " }] 30 2).length ≤ 30 ∧
    ∀ e ∈ structuredToEntries [{ word := " hello " }] 30 2,
      e.occurrences = some 1 ∧
      ∃ item ∈ [({ word := " hello " } : GeminiStructuredItem)], item.word ≠ "" ∧
        2 ≤ item.word.length ∧ e.word = jsTrim item.word :=
  structuredAttempt_normalization "lyrics" { language := VocabularyLanguage.en }
    { GEMINI_API_KEY := "key" } (Except.error ()) [{ word := " hello " }]
    (by decide) (by simp [firstStageFailed])

/-! ## Claims about the settings resolver -/

/-- Claim C7: the settings resolver is total; with no stored row it returns
exactly the default options, and with a row it coerces each field — a
language other than `"ko"` maps to `en`, a level other than `"beginner"` /
`"advanced"` maps to `intermediate`, a non-finite or out-of-range
`max_words` (resp. `min_length`) maps to 30 (resp. 2), and in-range values
are kept unchanged. -/
theorem getVocabularyOptionsForUser_spec :
    getVocabularyOptionsForUser none =
      { language := VocabularyLanguage.en, level := VocabularyLevel.intermediate,
        maxWords := 30, minLength := 2 } ∧
    ∀ row : UserVocabularySettingsRow,
      getVocabularyOptionsForUser (some row) = rowToOptions row ∧
      (row.language ≠ "ko" → (rowToOptions row).language = VocabularyLanguage.en) ∧
      (row.language = "ko" → (rowToOptions row).language = VocabularyLanguage.ko) ∧
      (row.level ≠ "beginner" → row.level ≠ "advanced" →
        (rowToOptions row).level = VocabularyLevel.intermediate) ∧
      (row.level = "beginner" → (rowToOptions row).level = VocabularyLevel.beginner) ∧
      (row.level = "advanced" → (rowToOptions row).level = VocabularyLevel.advanced) ∧
      (row.max_words = none → (rowToOptions row).maxWords = 30) ∧
      (∀ q : ℚ, row.max_words = some q → ¬(1 ≤ q ∧ q ≤ 200) →
        (rowToOptions row).maxWords = 30) ∧
      (∀ q : ℚ, row.max_words = some q → 1 ≤ q → q ≤ 200 →
        (rowToOptions row).maxWords = q) ∧
      (row.min_length = none → (rowToOptions row).minLength = 2) ∧
      (∀ q : ℚ, row.min_length = some q → ¬(1 ≤ q ∧ q ≤ 20) →
        (rowToOptions row).minLength = 2) ∧
      (∀ q : ℚ, row.min_length = some q → 1 ≤ q → q ≤ 20 →
        (rowToOptions row).minLength = q) := by
  refine ⟨rfl, fun row => ⟨rfl, ?_, ?_, ?_, ?_, ?_, ?_, ?_, ?_, ?_, ?_, ?_⟩⟩
  · intro h; simp [rowToOptions, h]
  · intro h; simp [rowToOptions, h]
  · intro h1 h2; simp [rowToOptions, h1, h2]
  · intro h; simp [rowToOptions, h]
  · intro h
    by_cases hb : row.level = "beginner"
    · exact absurd (hb.symm.trans h) (by decide)
    · simp [rowToOptions, h, hb]
  · intro h; simp [rowToOptions, h, DEFAULT_VOCABULARY_OPTIONS]
  · intro q h hq; simp [rowToOptions, h, hq, DEFAULT_VOCABULARY_OPTIONS]
  · intro q h h1 h2; simp [rowToOptions, h, h1, h2]
  · intro h; simp [rowToOptions, h, DEFAULT_VOCABULARY_OPTIONS]
  · intro q h hq; simp [rowToOptions, h, hq, DEFAULT_VOCABULARY_OPTIONS]
  · intro q h h1 h2; simp [rowToOptions, h, h1, h2]

/-- A concrete settings row with an invalid language, an invalid level, an
out-of-range `max_words` and an in-range `min_length`. -/
def c7Row : UserVocabularySettingsRow :=
  { language := "fr", level := "expert", max_words := some 500, min_length := some 7 }

/-- Witness for C7 at the row `c7Row`. -/
theorem getVocabularyOptionsForUser_spec_witness :
    (rowToOptions c7Row).language = VocabularyLanguage.en ∧
    (rowToOptions c7Row).level = VocabularyLevel.intermediate ∧
    (rowToOptions c7Row).maxWords = 30 ∧
    (rowToOptions c7Row).minLength = 7 :=
  have h := getVocabularyOptionsForUser_spec.2 c7Row
  ⟨h.2.1 (by decide), h.2.2.2.1 (by decide) (by decide),
   h.2.2.2.2.2.2.2.1 500 rfl (by norm_num),
   h.2.2.2.2.2.2.2.2.2.2.2 7 rfl (by norm_num) (by norm_num)⟩

/-! ## Claims about the lyrics extraction -/

/-- Counterexample to claim C6 as stated: a lyrics region reading exactly
`&amp;lt;` decodes to `<` — the chain replaces `&amp;` before `&lt;`, so the
intermediate `&lt;` is decoded again — not to the claimed `&lt;`. -/
theorem extractLyrics_doubleDecode_counterexample :
    extractLyricsFromRegions ["&amp;lt;"] = Except.ok "<" ∧
    ("<" : String) ≠ "&lt;" :=
  ⟨rfl, by decide⟩

/-- Claim C6 as amended: numeric character references are decoded before the
named ones, but `&amp;` is decoded before the other named entities, so an
ampersand-led named entity such as the literal text `&amp;lt;` in a region
is double-decoded to `<` (also when embedded in surrounding text). -/
theorem extractLyrics_entity_order :
    extractLyricsFromRegions ["&amp;lt;"] = Except.ok "<" ∧
    extractLyricsFromRegions ["see &amp;lt; now"] = Except.ok "see < now" ∧
    extractLyricsFromRegions ["<p>&amp; &lt; &gt; &quot; &#x27;</p>"] =
      Except.ok "& < > \" '" :=
  ⟨rfl, rfl, rfl⟩

/-! ## Claims about the persistence upsert -/

/-- The rows of the user's `user_words` table holding word `w`. -/
def wordRows (st : List UserWordRow) (w : String) : List UserWordRow :=
  st.filter fun r => decide (r.word = w)

/-- Total stored count for word `w` (by uniqueness there is at most one
contributing row in any reachable state). -/
def countOf (st : List UserWordRow) (w : String) : ℚ :=
  ((wordRows st w).map (fun r => r.count)).sum

/-- The sum of the occurrence deltas an entry list contributes to word `w`. -/
def occSum (entries : List UpsertUserWordEntry) (w : String) : ℚ :=
  ((entries.filter fun e => decide (jsTrim e.word = w)).map occurrencesDelta).sum

theorem countOf_cons (r : UserWordRow) (l : List UserWordRow) (w : String) :
    countOf (r :: l) w = (if r.word = w then r.count else 0) + countOf l w := by
  by_cases h : r.word = w <;> simp [countOf, wordRows, h]

theorem countOf_upsertWordRow (st : List UserWordRow) (w : String)
    (meaning : Option String) (occ : ℚ) (w' : String) :
    countOf (upsertWordRow st w meaning occ) w' =
      countOf st w' + (if w = w' then occ else 0) := by
  induction st with
  | nil => by_cases h : w = w' <;> simp [upsertWordRow, countOf, wordRows, h]
  | cons r rest ih =>
    by_cases hr : r.word = w
    · by_cases hw : w = w'
      · subst hw
        simp [upsertWordRow, hr, countOf_cons, hr]
        ring
      · have hr' : r.word ≠ w' := hr ▸ hw
        simp [upsertWordRow, hr, countOf_cons, hr', hw]
    · simp [upsertWordRow, hr, countOf_cons, ih]
      ring

theorem length_wordRows_cons (r : UserWordRow) (l : List UserWordRow) (w : String) :
    (wordRows (r :: l) w).length =
      (if r.word = w then 1 else 0) + (wordRows l w).length := by
  by_cases h : r.word = w <;> simp [wordRows, h, Nat.add_comm]

theorem length_wordRows_upsertWordRow_ne (st : List UserWordRow) (w : String)
    (meaning : Option String) (occ : ℚ) (w' : String) (hne : w ≠ w') :
    (wordRows (upsertWordRow st w meaning occ) w').length = (wordRows st w').length := by
  induction st with
  | nil =>
    have : w' ≠ w := fun h => hne h.symm
    simp [upsertWordRow, wordRows, hne, this]
  | cons r rest ih =>
    by_cases hr : r.word = w
    · have hr' : r.word ≠ w' := fun h => hne (hr ▸ h)
      simp [upsertWordRow, hr, length_wordRows_cons, hr']
    · simp [upsertWordRow, hr, length_wordRows_cons, ih]

theorem length_wordRows_upsertWordRow_self (st : List UserWordRow) (w : String)
    (meaning : Option String) (occ : ℚ) :
    (wordRows (upsertWordRow st w meaning occ) w).length =
      max (wordRows st w).length 1 := by
  induction st with
  | nil => simp [upsertWordRow, wordRows]
  | cons r rest ih =>
    by_cases hr : r.word = w
    · simp [upsertWordRow, hr, length_wordRows_cons]
    · simp [upsertWordRow, hr, length_wordRows_cons, ih]

theorem occSum_cons (e : UpsertUserWordEntry) (rest : List UpsertUserWordEntry)
    (w : String) :
    occSum (e :: rest) w =
      (if jsTrim e.word = w then occurrencesDelta e else 0) + occSum rest w := by
  by_cases h : jsTrim e.word = w <;> simp [occSum, h]

theorem countOf_upsertUserWords :
    ∀ (entries : List UpsertUserWordEntry) (st : List UserWordRow) (w : String),
      w ≠ "" →
      countOf (upsertUserWords entries st) w = countOf st w + occSum entries w := by
  intro entries
  induction entries with
  | nil => simp [upsertUserWords, occSum]
  | cons e rest ih =>
    intro st w hw
    rw [occSum_cons]
    by_cases he : jsTrim e.word = ""
    · have hne : ¬(jsTrim e.word = w) := fun h => hw (h ▸ he)
      have hstep : upsertUserWords (e :: rest) st = upsertUserWords rest st := by
        simp [upsertUserWords, he]
      rw [hstep, ih st w hw, if_neg hne]
      ring
    · simp only [upsertUserWords, if_neg he]
      rw [ih _ w hw, countOf_upsertWordRow]
      ring

theorem length_wordRows_upsertUserWords_not_mem :
    ∀ (entries : List UpsertUserWordEntry) (st : List UserWordRow) (w : String),
      w ∉ entries.map (fun e => jsTrim e.word) →
      (wordRows (upsertUserWords entries st) w).length = (wordRows st w).length := by
  intro entries
  induction entries with
  | nil => simp [upsertUserWords]
  | cons e rest ih =>
    intro st w hmem
    rw [List.map_cons, List.mem_cons] at hmem
    push_neg at hmem
    by_cases he : jsTrim e.word = ""
    · simp only [upsertUserWords, he, if_pos rfl]
      exact ih st w hmem.2
    · simp only [upsertUserWords, if_neg he]
      rw [ih _ w hmem.2,
        length_wordRows_upsertWordRow_ne _ _ _ _ _ (fun h => hmem.1 h.symm)]

theorem length_wordRows_upsertUserWords_mem :
    ∀ (entries : List UpsertUserWordEntry) (st : List UserWordRow) (w : String),
      w ≠ "" → w ∈ entries.map (fun e => jsTrim e.word) →
      (wordRows (upsertUserWords entries st) w).length =
        max (wordRows st w).length 1 := by
  intro entries
  induction entries with
  | nil => simp
  | cons e rest ih =>
    intro st w hw hmem
    by_cases hew : jsTrim e.word = w
    · have he : jsTrim e.word ≠ "" := hew ▸ hw
      simp only [upsertUserWords, if_neg he]
      by_cases hr : w ∈ rest.map (fun e => jsTrim e.word)
      · rw [ih _ w hw hr, hew, length_wordRows_upsertWordRow_self]
        omega
      · rw [length_wordRows_upsertUserWords_not_mem rest _ w hr, hew,
          length_wordRows_upsertWordRow_self]
    · have hr : w ∈ rest.map (fun e => jsTrim e.word) := by
        rw [List.map_cons, List.mem_cons] at hmem
        rcases hmem with h | h
        · exact absurd h.symm hew
        · exact h
      by_cases he : jsTrim e.word = ""
      · simp only [upsertUserWords, he, if_pos rfl]
        exact ih st w hw hr
      · simp only [upsertUserWords, if_neg he]
        rw [ih _ w hw hr, length_wordRows_upsertWordRow_ne _ _ _ _ _ hew]

theorem length_wordRows_eq_zero_of_not_mem {st : List UserWordRow} {w : String}
    (h : w ∉ st.map (fun r => r.word)) : (wordRows st w).length = 0 := by
  induction st with
  | nil => simp [wordRows]
  | cons r rest ih =>
    rw [List.map_cons, List.mem_cons] at h
    push_neg at h
    rw [length_wordRows_cons, if_neg (fun hh => h.1 hh.symm), ih h.2]

theorem length_wordRows_le_one_of_nodup {st : List UserWordRow} {w : String}
    (h : (st.map fun r => r.word).Nodup) : (wordRows st w).length ≤ 1 := by
  induction st with
  | nil => simp [wordRows]
  | cons r rest ih =>
    rw [List.map_cons, List.nodup_cons] at h
    rw [length_wordRows_cons]
    by_cases hr : r.word = w
    · rw [if_pos hr, length_wordRows_eq_zero_of_not_mem (hr ▸ h.1)]
    · rw [if_neg hr]
      simpa using ih h.2

theorem occurrencesDelta_eq_getD {e : UpsertUserWordEntry}
    (h : ∃ q : ℚ, e.occurrences = some q ∧ 1 ≤ q) :
    occurrencesDelta e = e.occurrences.getD 1 := by
  obtain ⟨q, hq, h1⟩ := h
  simp [occurrencesDelta, hq, h1]

theorem occSum_eq_occurrences_sum :
    ∀ (entries : List UpsertUserWordEntry) (w : String),
      (∀ e ∈ entries, ∃ q : ℚ, e.occurrences = some q ∧ 1 ≤ q) →
      occSum entries w = ((entries.filter fun e => decide (jsTrim e.word = w)).map
        fun e => e.occurrences.getD 1).sum := by
  intro entries
  induction entries with
  | nil => simp [occSum]
  | cons e rest ih =>
    intro w hocc
    rw [occSum_cons, ih w (fun x hx => hocc x (List.mem_cons_of_mem e hx))]
    by_cases h : jsTrim e.word = w
    · simp [h, occurrencesDelta_eq_getD (hocc e (List.mem_cons_self e rest))]
    · simp [h]

theorem mem_insertSynonymIfAbsent {a : String × String} {pairs : List (String × String)}
    {i s : String} :
    a ∈ insertSynonymIfAbsent pairs i s ↔ a ∈ pairs ∨ a = (i, s) := by
  by_cases h : (i, s) ∈ pairs
  · simp only [insertSynonymIfAbsent, if_pos h]
    constructor
    · exact Or.inl
    · rintro (ha | rfl)
      · exact ha
      · exact h
  · simp [insertSynonymIfAbsent, if_neg h]

theorem insertSynonymIfAbsent_of_mem {pairs : List (String × String)} {i s : String}
    (h : (i, s) ∈ pairs) : insertSynonymIfAbsent pairs i s = pairs := by
  simp [insertSynonymIfAbsent, h]

theorem nodup_insertSynonymIfAbsent {pairs : List (String × String)} {i s : String}
    (h : pairs.Nodup) : (insertSynonymIfAbsent pairs i s).Nodup := by
  by_cases hm : (i, s) ∈ pairs
  · rw [insertSynonymIfAbsent_of_mem hm]; exact h
  · simp [insertSynonymIfAbsent, hm, List.nodup_append, h]

theorem mem_foldl_insertSynonym {a : String × String} {i : String} :
    ∀ (l : List String) (pairs : List (String × String)), a ∈ pairs →
      a ∈ l.foldl (fun acc s => insertSynonymIfAbsent acc i s) pairs := by
  intro l
  induction l with
  | nil => intro pairs h; simpa using h
  | cons s rest ih =>
    intro pairs h
    exact ih _ (mem_insertSynonymIfAbsent.mpr (Or.inl h))

theorem mem_foldl_insertSynonym_of_mem {i : String} :
    ∀ (l : List String) (pairs : List (String × String)) (s : String), s ∈ l →
      (i, s) ∈ l.foldl (fun acc s => insertSynonymIfAbsent acc i s) pairs := by
  intro l
  induction l with
  | nil => simp
  | cons s0 rest ih =>
    intro pairs s hs
    rcases List.mem_cons.mp hs with rfl | hs'
    · exact mem_foldl_insertSynonym rest _ (mem_insertSynonymIfAbsent.mpr (Or.inr rfl))
    · exact ih _ s hs'

theorem foldl_insertSynonym_eq_of_all_mem {i : String} :
    ∀ (l : List String) (pairs : List (String × String)),
      (∀ s ∈ l, (i, s) ∈ pairs) →
      l.foldl (fun acc s => insertSynonymIfAbsent acc i s) pairs = pairs := by
  intro l
  induction l with
  | nil => intro pairs _; rfl
  | cons s rest ih =>
    intro pairs h
    rw [List.foldl_cons, insertSynonymIfAbsent_of_mem (h s (List.mem_cons_self s rest))]
    exact ih _ fun s' hs' => h s' (List.mem_cons_of_mem s hs')

theorem nodup_foldl_insertSynonym {i : String} :
    ∀ (l : List String) (pairs : List (String × String)), pairs.Nodup →
      (l.foldl (fun acc s => insertSynonymIfAbsent acc i s) pairs).Nodup := by
  intro l
  induction l with
  | nil => intro pairs h; simpa using h
  | cons s rest ih =>
    intro pairs h
    exact ih _ (nodup_insertSynonymIfAbsent h)

/-- Claim C4: with every entry carrying a numeric `occurrences ≥ 1` and a
well-keyed initial table (at most one row per word), applying the word
upsert twice leaves, for each distinct non-empty trimmed word of the entry
list, a single row, whose total count grew by exactly twice that word's
per-call occurrence sum (a first insert contributes `count = occurrences`,
so an absent word starts from a prior total of 0); and repeated synonym
insertion keeps the `(word-id, synonym)` relation a duplicate-free set. -/
theorem upsertUserWords_idempotent_synonyms_set :
    (∀ (entries : List UpsertUserWordEntry) (st : List UserWordRow),
      (st.map fun r => r.word).Nodup →
      (∀ e ∈ entries, ∃ q : ℚ, e.occurrences = some q ∧ 1 ≤ q) →
      ∀ w, w ≠ "" → w ∈ entries.map (fun e => jsTrim e.word) →
        (wordRows (upsertUserWords entries (upsertUserWords entries st)) w).length = 1 ∧
        countOf (upsertUserWords entries (upsertUserWords entries st)) w =
          countOf st w + 2 * occSum entries w ∧
        occSum entries w = ((entries.filter fun e => decide (jsTrim e.word = w)).map
          fun e => e.occurrences.getD 1).sum) ∧
    ∀ (userWordId : String) (synonyms : List String) (pairs : List (String × String)),
      pairs.Nodup →
      insertWordSynonyms userWordId synonyms
          (insertWordSynonyms userWordId synonyms pairs) =
        insertWordSynonyms userWordId synonyms pairs ∧
      (insertWordSynonyms userWordId synonyms
          (insertWordSynonyms userWordId synonyms pairs)).Nodup := by
  constructor
  · intro entries st hkeys hocc w hw hmem
    refine ⟨?_, ?_, occSum_eq_occurrences_sum entries w hocc⟩
    · rw [length_wordRows_upsertUserWords_mem entries _ w hw hmem,
        length_wordRows_upsertUserWords_mem entries st w hw hmem]
      have := @length_wordRows_le_one_of_nodup st w hkeys
      omega
    · rw [countOf_upsertUserWords entries _ w hw, countOf_upsertUserWords entries st w hw]
      ring
  · intro userWordId synonyms pairs hnodup
    constructor
    · exact foldl_insertSynonym_eq_of_all_mem _ _ fun s hs =>
        mem_foldl_insertSynonym_of_mem _ _ s hs
    · exact nodup_foldl_insertSynonym _ _ (nodup_foldl_insertSynonym _ _ hnodup)

/-- The entry list of the C4 witness. -/
def c4Entries : List UpsertUserWordEntry :=
  [{ word := " hi", occurrences := some 2 },
   { word := "hi ", meaning := some "meaning", occurrences := some 3 }]

/-- Witness for C4: two entries trimming to the same word `"hi"`, upserted
twice into an empty table, and a synonym batch applied twice. -/
theorem upsertUserWords_idempotent_synonyms_set_witness :
    ((wordRows (upsertUserWords c4Entries (upsertUserWords c4Entries [])) "hi").length = 1 ∧
     countOf (upsertUserWords c4Entries (upsertUserWords c4Entries [])) "hi" =
       countOf [] "hi" + 2 * occSum c4Entries "hi" ∧
     occSum c4Entries "hi" = ((c4Entries.filter fun e => decide (jsTrim e.word = "hi")).map
       fun e => e.occurrences.getD 1).sum) ∧
    (insertWordSynonyms "id1" ["a", "a", " b "]
        (insertWordSynonyms "id1" ["a", "a", " b "] []) =
      insertWordSynonyms "id1" ["a", "a", " b "] [] ∧
    (insertWordSynonyms "id1" ["a", "a", " b "]
        (insertWordSynonyms "id1" ["a", "a", " b "] [])).Nodup) :=
  ⟨upsertUserWords_idempotent_synonyms_set.1 c4Entries [] (by simp)
    (by
      intro e he
      rcases List.mem_cons.mp he with rfl | he'
      · exact ⟨2, rfl, by norm_num⟩
      · rcases List.mem_cons.mp he' with rfl | he''
        · exact ⟨3, rfl, by norm_num⟩
        · cases he'')
    "hi" (by decide) (by decide),
   upsertUserWords_idempotent_synonyms_set.2 "id1" ["a", "a", " b "] [] (by simp)⟩

end OneWave
